import Mathlib

/-!
# A verification model of the simple-backup engine

Shallow embedding, in Lean 4, of the backup engine implemented in `main.go`
(current revision): glob-based include/exclude filtering (`shouldInclude`),
the filtered pre-order tree walk of `copyDirectory`, configuration
validation (`Config.validate`, `parseDiskSize`), the per-item run loop with
its exit-on-error policy (`runBackup`), the post-run retention decision and
`cleanupOldBackups`, the interactive confirmation gates, and the progress
callback.  Machine integers are modelled as `Nat`/`Int` with explicit
`% 2 ^ 64` where Go's `uint64` arithmetic can wrap; fallible Go functions
returning `(T, error)` are modelled as `Option`/`Except`.
-/

namespace SimpleBackup

/-! ## String helpers (models of the Go standard-library calls the code uses) -/

/-- Model of Go `unicode.IsSpace` restricted to the ASCII whitespace that can
realistically reach the trimming call sites (space, tab, CR, LF). -/
def isSpaceChar (c : Char) : Bool :=
  c == ' ' || c == '\t' || c == '\n' || c == '\r'

/-- Model of Go `strings.TrimSpace`: drop whitespace from both ends. -/
def trimStr (s : String) : String :=
  ⟨((s.data.dropWhile isSpaceChar).reverse.dropWhile isSpaceChar).reverse⟩

/-- Model of Go `strings.ToLower` (ASCII fragment, which covers every string
the program compares after lowering: "yes", "no", "mb", "gb"). -/
def toLowerStr (s : String) : String :=
  ⟨s.data.map Char.toLower⟩

/-- Model of Go `strings.HasPrefix`. -/
def hasPrefixStr (s pre : String) : Bool :=
  pre.data.isPrefixOf s.data

/-- Model of Go `strings.HasSuffix`. -/
def hasSuffixStr (s suffix : String) : Bool :=
  suffix.data.isSuffixOf s.data

/-- Model of Go `strings.TrimSuffix`. -/
def trimSuffixStr (s suffix : String) : String :=
  if hasSuffixStr s suffix then ⟨s.data.take (s.data.length - suffix.data.length)⟩ else s

/-! ## Glob matching

`shouldInclude` calls `filepath.Match(pattern, path)` and discards the
error value.  `globMatchAux` models `filepath.Match` on the `*` / `?` /
literal fragment (the program's patterns contain no character classes and
no escapes): `*` matches any possibly-empty run of non-separator
characters, `?` matches exactly one non-separator character, anything else
matches itself.  The separator is `/`, the value of `filepath.Separator`
on the non-Windows build of the engine.  The fuel argument only makes the
recursion structural; every recursive call decreases
`pattern.length + name.length`, so fuel `pattern.length + name.length + 1`
never runs out. -/
def globMatchAux : Nat → List Char → List Char → Bool
  | 0, _, _ => false
  | _ + 1, [], cs => cs.isEmpty
  | fuel + 1, '*' :: ps, cs =>
      globMatchAux fuel ps cs ||
        (match cs with
         | [] => false
         | c :: cs2 => c != '/' && globMatchAux fuel ('*' :: ps) cs2)
  | fuel + 1, '?' :: ps, c :: cs => c != '/' && globMatchAux fuel ps cs
  | _ + 1, '?' :: _, [] => false
  | fuel + 1, p :: ps, c :: cs => p == c && globMatchAux fuel ps cs
  | _ + 1, _ :: _, [] => false

/-- Model of `filepath.Match pattern name` as used by `shouldInclude`
(`matched, _ := filepath.Match(pattern, path)`). -/
def goMatch (pattern name : String) : Bool :=
  globMatchAux (pattern.data.length + name.data.length + 1) pattern.data name.data

/-! ## The pattern filter: `BackupApp.shouldInclude` -/

/-- One iteration of the loops in `shouldInclude`: the pattern matches the
whole relative path as a glob, or the path lies under a directory literally
named by the pattern (`strings.HasPrefix(path, pattern+string(filepath.Separator))`). -/
def matchesOrUnder (pattern path : String) : Bool :=
  goMatch pattern path || hasPrefixStr path (pattern ++ "/")

/-- Model of `BackupApp.shouldInclude(path, include, exclude)`: when the
include list is non-empty the path must match or lie under some include
pattern, and any exclude match (direct or prefix) forces `false`. -/
def shouldInclude (path : String) (includePats excludePats : List String) : Bool :=
  if !includePats.isEmpty && !includePats.any (fun pattern => matchesOrUnder pattern path) then
    false
  else
    !excludePats.any (fun pattern => matchesOrUnder pattern path)

/-! ## The filtered walk of `BackupApp.copyDirectory`

`copyDirectory` drives `filepath.Walk`, which visits the source tree in
pre-order, and answers `filepath.SkipDir` for a directory that fails
`shouldInclude`, pruning its whole subtree.  We model the source tree as
the pre-order listing of its entries (relative path plus directory flag)
and the pruning by a list of skipped directory paths: an entry lying under
a skipped directory is not visited.  The result is the list of relative
paths created at the destination, in creation order. -/
structure WalkEntry where
  rel : String
  isDir : Bool
deriving DecidableEq

/-- The filtered walk with an accumulator of pruned directories. -/
def walkFiltered (includePats excludePats : List String) :
    List String → List WalkEntry → List String
  | _, [] => []
  | skips, e :: rest =>
    if skips.any (fun d => hasPrefixStr e.rel (d ++ "/")) then
      walkFiltered includePats excludePats skips rest
    else if shouldInclude e.rel includePats excludePats then
      e.rel :: walkFiltered includePats excludePats skips rest
    else if e.isDir then
      walkFiltered includePats excludePats (e.rel :: skips) rest
    else
      walkFiltered includePats excludePats skips rest

/-- Model of `BackupApp.copyDirectory`: the relative paths created under the
destination, for a source tree given by its pre-order listing. -/
def copyDirectory (includePats excludePats : List String) (entries : List WalkEntry) :
    List String :=
  walkFiltered includePats excludePats [] entries

/-! ## Configuration constants (`main.go`, LIMITS AND DEFAULTS) -/

def Prefix : String := "smbkp"
def BackupDestDirDefault : String := "smbkp"
def LimitMinBackupsToKeep : Nat := 1
def LimitMinFreeSpace : String := "10mb"
def LimitMinFreeSpaceParsed : Nat := 10485760

/-! ## `parseDiskSize` (`helpers.go`) -/

/-- Decimal digits to a natural number. -/
def digitsToNat (ds : List Char) : Nat :=
  ds.foldl (fun a c => a * 10 + (c.toNat - 48)) 0

/-- Model of Go `strconv.ParseInt(s, 10, 64)`: optional sign, a non-empty
run of decimal digits, and a signed 64-bit range check. -/
def parseIntDec (s : String) : Option Int :=
  let core (sign : Int) (ds : List Char) : Option Int :=
    if ds.isEmpty || !ds.all Char.isDigit then none
    else
      let v : Int := sign * (digitsToNat ds : Int)
      if -(2 ^ 63) ≤ v ∧ v ≤ 2 ^ 63 - 1 then some v else none
  match s.data with
  | '+' :: rest => core 1 rest
  | '-' :: rest => core (-1) rest
  | ds => core 1 ds

/-- Model of `parseDiskSize(sizeStr)` from `helpers.go`: trim and lower the
input, dispatch on an `mb`/`gb` suffix, parse the remaining number with
`strconv.ParseInt(..., 10, 64)`, and return `uint64(num) * multiplier`
(Go `uint64` arithmetic, hence the explicit `% 2 ^ 64`).  `none` models
the error returns. -/
def parseDiskSize (sizeStr : String) : Option Nat :=
  let s := toLowerStr (trimStr sizeStr)
  let parseWith (valueStr : String) (multiplier : Nat) : Option Nat :=
    match parseIntDec (trimStr valueStr) with
    | none => none
    | some num => some ((num % (2 : Int) ^ 64).toNat * multiplier % 2 ^ 64)
  if hasSuffixStr s "mb" then parseWith (trimSuffixStr s "mb") 1048576
  else if hasSuffixStr s "gb" then parseWith (trimSuffixStr s "gb") 1073741824
  else none

/-! ## Configuration objects and `Config.validate` (`main.go`) -/

/-- Model of the regex test `regexp.MustCompile(MinFreeSpacePattern)` with
pattern `^\d+(mb|gb)$` applied to `strings.ToLower(minFreeSpace)`. -/
def matchesMinFreeSpaceFormat (s : String) : Bool :=
  let t := (toLowerStr s).data
  (t.length ≥ 3) && (t.take (t.length - 2)).all Char.isDigit &&
    (t.drop (t.length - 2) == ['m', 'b'] || t.drop (t.length - 2) == ['g', 'b'])

/-- Model of Go `filepath.Base` (non-Windows): empty path gives `.`,
trailing separators are removed, the last element is returned, and a path
of only separators gives `/`. -/
def baseName (path : String) : String :=
  if path = "" then "."
  else
    let stripped := path.data.reverse.dropWhile (· == '/') |>.reverse
    if stripped.isEmpty then "/"
    else ⟨stripped.reverse.takeWhile (· != '/') |>.reverse⟩

structure BackupItem where
  Source : String
  Destination : String
  Include : List String
  Exclude : List String
deriving DecidableEq

structure RetentionSettings where
  BackupsToKeep : Nat
  MinFreeSpace : String
  minFreeSpaceParsed : Nat
deriving DecidableEq

structure Config where
  BkpDestDir : String
  Retention : RetentionSettings
  BkpItems : List BackupItem
deriving DecidableEq

/-- Model of `NewConfig()`: the defaults. -/
def NewConfig : Config :=
  { BkpDestDir := BackupDestDirDefault
    Retention :=
      { BackupsToKeep := LimitMinBackupsToKeep
        MinFreeSpace := LimitMinFreeSpace
        minFreeSpaceParsed := LimitMinFreeSpaceParsed }
    BkpItems := [] }

/-- Model of `Config.validate()` in the current revision of `main.go`.
It mirrors the source statement for statement: clamp `BackupsToKeep` up to
the floor; reject a malformed `min_free_space`; parse it; on a
below-floor value overwrite `MinFreeSpace` and `minFreeSpaceParsed` with
the floor; then (unconditionally, exactly as the source does after the
`if`) assign the freshly parsed value to `minFreeSpaceParsed`; finally
default each item destination to the base name of its source. -/
def Config.validate (c0 : Config) : Except String Config :=
  let c1 :=
    if c0.Retention.BackupsToKeep < LimitMinBackupsToKeep then
      { c0 with Retention := { c0.Retention with BackupsToKeep := LimitMinBackupsToKeep } }
    else c0
  if !matchesMinFreeSpaceFormat c1.Retention.MinFreeSpace then
    .error "min_free_space value has invalid format"
  else
    match parseDiskSize c1.Retention.MinFreeSpace with
    | none => .error "invalid number value"
    | some minFreeSpaceParsed =>
      let c2 :=
        if minFreeSpaceParsed < LimitMinFreeSpaceParsed then
          { c1 with Retention :=
              { c1.Retention with
                  MinFreeSpace := LimitMinFreeSpace
                  minFreeSpaceParsed := LimitMinFreeSpaceParsed } }
        else c1
      let c3 :=
        { c2 with Retention := { c2.Retention with minFreeSpaceParsed := minFreeSpaceParsed } }
      let items := c3.BkpItems.map fun it =>
        if it.Destination = "" then { it with Destination := baseName it.Source } else it
      .ok { c3 with BkpItems := items }

/-! ## Interactive confirmation gates

Every prompt handler in the source normalises the read line with
`strings.TrimSpace(strings.ToLower(response))` before comparing. -/

/-- The normalisation applied to every interactive response. -/
def normalizeResponse (response : String) : String :=
  trimStr (toLowerStr response)

/-- Model of the proceed-with-backup gate in `reviewBackupConfig`
(`if response != "yes" { os.Exit(0) }` after normalisation). -/
def confirmsProceed (response : String) : Bool :=
  normalizeResponse response == "yes"

/-- Model of the exit-on-error halt gate in `runBackup`
(`if response != "no" { return err }` after normalisation); `true` means
execution continues past the halt. -/
def continuesPastHalt (response : String) : Bool :=
  normalizeResponse response == "no"

/-- Model of the cleanup-after-partial-failure gate in `runBackup`
(`if response == "yes" { app.cleanupOldBackups() }` after normalisation). -/
def confirmsCleanup (response : String) : Bool :=
  normalizeResponse response == "yes"

/-- Whether `reviewBackupConfig` lets the run proceed: non-interactive runs
return before the prompt; interactive runs proceed only on a confirming
response. -/
def proceedWithBackup (nonInteractive : Bool) (response : String) : Bool :=
  nonInteractive || confirmsProceed response

/-! ## The per-item loop of `BackupApp.runBackup`

Each backup item either succeeds, fails while counting its entries
(`countTotalItems` returns an error), or fails during the copy
(`backupItem` returns an error).  Both failure kinds append a failed
`BackupResult` and are then subject to the same exit-on-error policy:
with `exitOnError` set, a non-interactive run returns immediately, and an
interactive run prompts, continuing only when the response normalises to
`"no"`.  `runItems` returns the success flags of the recorded
`BackupResult` list in order, plus whether the loop aborted early. -/
inductive ItemOutcome where
  | success
  | countFail
  | copyFail
deriving DecidableEq

def ItemOutcome.ok : ItemOutcome → Bool
  | .success => true
  | _ => false

/-- The item loop; `responses` is the stream of interactive answers
consumed at exit-on-error prompts (a missing answer reads as `""`). -/
def runItems (exitOnError nonInteractive : Bool) :
    List ItemOutcome → List String → List Bool × Bool
  | [], _ => ([], false)
  | item :: rest, responses =>
    match item with
    | .success =>
      let r := runItems exitOnError nonInteractive rest responses
      (true :: r.1, r.2)
    | _ =>
      if exitOnError then
        if !nonInteractive then
          if continuesPastHalt (responses.headD "") then
            let r := runItems exitOnError nonInteractive rest responses.tail
            (false :: r.1, r.2)
          else ([false], true)
        else ([false], true)
      else
        let r := runItems exitOnError nonInteractive rest responses
        (false :: r.1, r.2)

/-- The failure counter accumulated by the loop: the failed results. -/
def failedCount (results : List Bool) : Nat :=
  results.countP (fun b => !b)

/-- The post-loop retention decision of `runBackup`: cleanup runs
unconditionally when nothing failed; with failures it is skipped
non-interactively, and interactively it runs only on a confirming
response. -/
def cleanupRuns (nonInteractive : Bool) (failed : Nat) (response : String) : Bool :=
  if failed = 0 then true
  else if nonInteractive then false
  else confirmsCleanup response

/-! ## `BackupApp.cleanupOldBackups`

`os.ReadDir` returns the entries of the backup root sorted by file name
(`none` models a listing error, which the function only logs).  The
function keeps the entries that are directories whose name starts with
`Prefix ++ "-"`, is a no-op when at most `BackupsToKeep` remain, and
otherwise attempts to remove the first `count - keep` of them; removal
errors are logged and do not stop the loop, and every path returns a nil
error, so the model returns just the list of directory names whose
removal is attempted, in order. -/
structure DirEntry where
  name : String
  isDir : Bool
deriving DecidableEq

/-- The filter applied to each entry of the backup root. -/
def isBackupDirEntry (e : DirEntry) : Bool :=
  e.isDir && hasPrefixStr e.name (Prefix ++ "-")

/-- Lexicographic (code-point) order on names, the order `os.ReadDir`
sorts by and the order that makes the timestamp-bearing backup directory
names chronological. -/
def lexLe : List Char → List Char → Bool
  | [], _ => true
  | _ :: _, [] => false
  | c :: cs, d :: ds =>
    if c.val < d.val then true
    else if d.val < c.val then false
    else lexLe cs ds

/-- Model of `cleanupOldBackups`: the names whose removal is attempted. -/
def cleanupOldBackups (backupsToKeep : Nat) (entries : Option (List DirEntry)) :
    List String :=
  match entries with
  | none => []
  | some entries =>
    let backupDirs := entries.filter isBackupDirEntry
    if backupDirs.length ≤ backupsToKeep then []
    else (backupDirs.take (backupDirs.length - backupsToKeep)).map (·.name)

/-! ## The progress callback of `runBackup`

The callback increments `processedItems`, computes
`int(float64(processedItems) * 100 / float64(totalItems))` — exactly
`⌊processedItems * 100 / totalItems⌋`, which `Nat` division gives — and
redraws the bar only when that percentage strictly exceeds `lastUpdate`
(initially `-1`). -/
structure ProgressState where
  processedItems : Nat
  lastUpdate : Int
deriving DecidableEq

def initProgress : ProgressState := ⟨0, -1⟩

/-- One invocation of `progressCb`; the flag reports whether the bar was
redrawn. -/
def progressStep (totalItems : Nat) (s : ProgressState) : ProgressState × Bool :=
  let processed := s.processedItems + 1
  if 0 < totalItems then
    let percentage : Int := (processed * 100 / totalItems : Nat)
    if s.lastUpdate < percentage then (⟨processed, percentage⟩, true)
    else (⟨processed, s.lastUpdate⟩, false)
  else (⟨processed, s.lastUpdate⟩, false)

/-- Running the callback `k` times, collecting the redrawn percentages in
order. -/
def runProgress (totalItems : Nat) : Nat → ProgressState × List Int
  | 0 => (initProgress, [])
  | k + 1 =>
    let r := runProgress totalItems k
    let s := progressStep totalItems r.1
    (s.1, r.2 ++ if s.2 then [s.1.lastUpdate] else [])

/-! ## The free-space review and the orchestration order

`reviewBackupConfig` probes the free space of the backup destination and
fails when it is below `minFreeSpaceParsed`; `main` exits on a review
failure, so `runBackup` — which is what creates the timestamped run
directory and processes the items — is reached only when the review
passes. -/
structure RunOutcome where
  runDirCreated : Bool
  resultsCount : Nat
deriving DecidableEq

/-- The review-then-run pipeline of `main`, restricted to the free-space
check: on insufficient space the process exits before `runBackup`, so no
run directory is created and no item is processed. -/
def orchestrate (availableFreeSpace minFreeSpaceParsed : Nat)
    (exitOnError nonInteractive : Bool) (items : List ItemOutcome)
    (responses : List String) : RunOutcome :=
  if availableFreeSpace < minFreeSpaceParsed then ⟨false, 0⟩
  else ⟨true, (runItems exitOnError nonInteractive items responses).1.length⟩

/-! ## Helper lemmas about the pattern filter and the walk -/

theorem hasPrefixStr_iff (s pre : String) :
    hasPrefixStr s pre = true ↔ pre.data <+: s.data := by
  simp [hasPrefixStr, List.isPrefixOf_iff_prefix]

theorem hasPrefixStr_append_right (pattern rest : String) :
    hasPrefixStr (pattern ++ "/" ++ rest) (pattern ++ "/") = true := by
  rw [hasPrefixStr_iff, String.data_append]
  exact List.prefix_append _ _

/-- A path under `d` is also under any directory `s` that `d` is under. -/
theorem hasPrefixStr_under_trans (s d e : String)
    (h1 : hasPrefixStr d (s ++ "/") = true) (h2 : hasPrefixStr e (d ++ "/") = true) :
    hasPrefixStr e (s ++ "/") = true := by
  rw [hasPrefixStr_iff] at h1 h2 ⊢
  have hmid : d.data <+: (d ++ "/").data := by
    rw [String.data_append]
    exact List.prefix_append _ _
  exact (h1.trans hmid).trans h2

/-- Any exclude pattern that matches (directly or as a directory prefix)
forces `shouldInclude` to `false`, whatever the include list says. -/
theorem shouldInclude_of_excluded (path : String) (includePats excludePats : List String)
    (pattern : String) (hp : pattern ∈ excludePats) (hm : matchesOrUnder pattern path = true) :
    shouldInclude path includePats excludePats = false := by
  have hany : excludePats.any (fun q => matchesOrUnder q path) = true :=
    List.any_eq_true.mpr ⟨pattern, hp, hm⟩
  unfold shouldInclude
  split
  · rfl
  · simp [hany]

/-- A path lying under a directory literally named by an include pattern is
included (no excludes). -/
theorem shouldInclude_of_under (path : String) (includePats : List String)
    (pattern : String) (hp : pattern ∈ includePats)
    (hu : hasPrefixStr path (pattern ++ "/") = true) :
    shouldInclude path includePats [] = true := by
  have hany : includePats.any (fun q => matchesOrUnder q path) = true :=
    List.any_eq_true.mpr ⟨pattern, hp, by simp [matchesOrUnder, hu]⟩
  simp [shouldInclude, hany]

/-- Once a directory `d` that fails `shouldInclude` is recorded in the
pruning state (itself, or via an ancestor), nothing of the remaining walk
output is `d` or lies under `d`. -/
theorem walkFiltered_no_descendant_of_skipped
    (includePats excludePats : List String) (d : String)
    (hd : shouldInclude d includePats excludePats = false)
    (entries : List WalkEntry) :
    ∀ (skips : List String),
      (d ∈ skips ∨ ∃ s ∈ skips, hasPrefixStr d (s ++ "/") = true) →
      ∀ p ∈ walkFiltered includePats excludePats skips entries,
        hasPrefixStr p (d ++ "/") = false ∧ p ≠ d := by
  induction entries with
  | nil =>
    intro skips _ p hp
    simp [walkFiltered] at hp
  | cons e rest ih =>
    intro skips hG p hp
    rw [walkFiltered] at hp
    by_cases hskip : skips.any (fun q => hasPrefixStr e.rel (q ++ "/")) = true
    · rw [if_pos hskip] at hp
      exact ih skips hG p hp
    · rw [if_neg hskip] at hp
      by_cases hinc : shouldInclude e.rel includePats excludePats = true
      · rw [if_pos hinc] at hp
        rcases List.mem_cons.mp hp with rfl | hrest
        · constructor
          · by_contra hfalse
            rw [Bool.not_eq_false] at hfalse
            rcases hG with hmem | ⟨s, hs, hsd⟩
            · exact hskip (List.any_eq_true.mpr ⟨d, hmem, hfalse⟩)
            · exact hskip (List.any_eq_true.mpr
                ⟨s, hs, hasPrefixStr_under_trans s d e.rel hsd hfalse⟩)
          · intro hpd
            rw [hpd, hd] at hinc
            exact Bool.false_ne_true hinc
        · exact ih skips hG p hrest
      · rw [if_neg hinc] at hp
        by_cases hdir : e.isDir = true
        · rw [if_pos hdir] at hp
          refine ih (e.rel :: skips) ?_ p hp
          rcases hG with hmem | ⟨s, hs, hsd⟩
          · exact Or.inl (List.mem_cons_of_mem _ hmem)
          · exact Or.inr ⟨s, List.mem_cons_of_mem _ hs, hsd⟩
        · rw [if_neg hdir] at hp
          exact ih skips hG p hp

/-- For a pre-order listing (no entry under `d` precedes `d`), a directory
`d` failing `shouldInclude` is pruned: the copy output contains neither
`d` nor anything under it. -/
theorem walkFiltered_no_descendant_of_excluded
    (includePats excludePats : List String) (d : String) (post : List WalkEntry)
    (hd : shouldInclude d includePats excludePats = false) :
    ∀ (pre : List WalkEntry) (skips : List String),
      (∀ e ∈ pre, hasPrefixStr e.rel (d ++ "/") = false) →
      ∀ p ∈ walkFiltered includePats excludePats skips (pre ++ ⟨d, true⟩ :: post),
        hasPrefixStr p (d ++ "/") = false ∧ p ≠ d := by
  intro pre
  induction pre with
  | nil =>
    intro skips _ p hp
    rw [List.nil_append, walkFiltered] at hp
    by_cases hskip : skips.any (fun q => hasPrefixStr (WalkEntry.mk d true).rel (q ++ "/")) = true
    · rw [if_pos hskip] at hp
      rcases List.any_eq_true.mp hskip with ⟨s, hs, hsd⟩
      exact walkFiltered_no_descendant_of_skipped includePats excludePats d hd post skips
        (Or.inr ⟨s, hs, hsd⟩) p hp
    · rw [if_neg hskip] at hp
      rw [if_neg (by simp [hd]), if_pos rfl] at hp
      exact walkFiltered_no_descendant_of_skipped includePats excludePats d hd post
        ((WalkEntry.mk d true).rel :: skips) (Or.inl (List.mem_cons_self _ _)) p hp
  | cons e rest ih =>
    intro skips hpre p hp
    rw [List.cons_append, walkFiltered] at hp
    by_cases hskip : skips.any (fun q => hasPrefixStr e.rel (q ++ "/")) = true
    · rw [if_pos hskip] at hp
      exact ih skips (fun x hx => hpre x (List.mem_cons_of_mem _ hx)) p hp
    · rw [if_neg hskip] at hp
      by_cases hinc : shouldInclude e.rel includePats excludePats = true
      · rw [if_pos hinc] at hp
        rcases List.mem_cons.mp hp with rfl | hrest
        · refine ⟨hpre e (List.mem_cons_self _ _), ?_⟩
          intro hpd
          rw [hpd, hd] at hinc
          exact Bool.false_ne_true hinc
        · exact ih skips (fun x hx => hpre x (List.mem_cons_of_mem _ hx)) p hrest
      · rw [if_neg hinc] at hp
        by_cases hdir : e.isDir = true
        · rw [if_pos hdir] at hp
          exact ih (e.rel :: skips) (fun x hx => hpre x (List.mem_cons_of_mem _ hx)) p hp
        · rw [if_neg hdir] at hp
          exact ih skips (fun x hx => hpre x (List.mem_cons_of_mem _ hx)) p hp

/-- A listing whose entries all lie under the literal directory name
`pattern` of an include pattern is copied in full. -/
theorem walkFiltered_all_under (includePats : List String) (pattern : String)
    (hp : pattern ∈ includePats) (entries : List WalkEntry)
    (hunder : ∀ e ∈ entries, hasPrefixStr e.rel (pattern ++ "/") = true) :
    copyDirectory includePats [] entries = entries.map (·.rel) := by
  induction entries with
  | nil => rfl
  | cons e rest ih =>
    have he := shouldInclude_of_under e.rel includePats pattern hp
      (hunder e (List.mem_cons_self _ _))
    unfold copyDirectory at ih ⊢
    rw [walkFiltered, if_neg (by simp), if_pos he, List.map_cons]
    rw [ih (fun x hx => hunder x (List.mem_cons_of_mem _ hx))]

/-! ## The claims -/

/-- C1: after `Config.validate` succeeds both retention floors were claimed
to hold, with every below-floor value clamped up; the code instead
clobbers the clamped `minFreeSpaceParsed`.  Evaluating `validate` at the
failing input `min_free_space = "5mb"`: `BackupsToKeep` is clamped to 1
and `MinFreeSpace` is rewritten to `"10mb"`, yet the effective parsed
value comes out as 5242880 — below the 10485760 floor, contradicting both
the claim and the code's own warning message. -/
theorem c1_validate_min_free_space_floor_clobbered :
    (Config.validate
        { BkpDestDir := "smbkp"
          Retention := { BackupsToKeep := 0, MinFreeSpace := "5mb", minFreeSpaceParsed := 0 }
          BkpItems := [] }).toOption =
      some { BkpDestDir := "smbkp"
             Retention := { BackupsToKeep := 1, MinFreeSpace := "10mb",
                            minFreeSpaceParsed := 5242880 }
             BkpItems := [] } ∧
    5242880 < LimitMinFreeSpaceParsed := by
  constructor
  · rfl
  · decide

/-- C2 counterexample: the include pattern `"Doc*"` glob-matches the
directory `"Documents"`, which is therefore included and created, but its
descendant `"Documents/file.txt"` is rejected by `shouldInclude` (the
descendant rule compares against the literal text `pattern ++ "/"`), so
`copyDirectory` prunes the subtree: the claim fails as stated. -/
theorem c2_counterexample :
    goMatch "Doc*" "Documents" = true ∧
    shouldInclude "Documents" ["Doc*"] [] = true ∧
    shouldInclude "Documents/file.txt" ["Doc*"] [] = false ∧
    copyDirectory ["Doc*"] []
        [⟨"Documents", true⟩, ⟨"Documents/file.txt", false⟩] = ["Documents"] := by
  refine ⟨by decide, by decide, by decide, by decide⟩

/-- C2 (amended): descendant inclusion is by literal string prefix, not by
glob match.  Every relative path of the form `pattern ++ "/" ++ rest` for
an include pattern is included by `shouldInclude`, and a pre-order subtree
all of whose entries lie under the literal directory name `pattern` is
created in full by `copyDirectory`; a directory that only glob-matches an
include pattern containing metacharacters (such as `"Doc*"` matching
`"Documents"`) does not carry its descendants along. -/
theorem c2_descendants_of_literal_directory (includePats : List String)
    (pattern rest : String) (entries : List WalkEntry)
    (hp : pattern ∈ includePats)
    (hunder : ∀ e ∈ entries, hasPrefixStr e.rel (pattern ++ "/") = true) :
    shouldInclude (pattern ++ "/" ++ rest) includePats [] = true ∧
    copyDirectory includePats [] entries = entries.map (·.rel) :=
  ⟨shouldInclude_of_under _ includePats pattern hp (hasPrefixStr_append_right pattern rest),
   walkFiltered_all_under includePats pattern hp entries hunder⟩

/-- C2 witness: a directory literally named `"Documents"` in the include
list carries `"Documents/file.txt"` into the copy output. -/
theorem c2_descendants_of_literal_directory_witness :
    shouldInclude ("Documents" ++ "/" ++ "file.txt") ["Documents"] [] = true ∧
    copyDirectory ["Documents"] [] [⟨"Documents/file.txt", false⟩] = ["Documents/file.txt"] := by
  have h := c2_descendants_of_literal_directory ["Documents"] "Documents" "file.txt"
    [⟨"Documents/file.txt", false⟩] (by decide) (by decide)
  exact ⟨h.1, h.2.trans (by decide)⟩

/-- C7: exclude always overrides include — a path matching an exclude
pattern as a glob, or lying under a directory named by one, is rejected by
`shouldInclude` whatever the include list says; and for a pre-order
listing, once a directory `d` matches an exclude pattern nothing of the
copy output is `d` or a descendant of `d`. -/
theorem c7_exclude_overrides_include (includePats excludePats : List String)
    (pattern d p : String) (pre post : List WalkEntry)
    (hp : pattern ∈ excludePats) (hm : matchesOrUnder pattern d = true)
    (hpre : ∀ e ∈ pre, hasPrefixStr e.rel (d ++ "/") = false)
    (hq : p ∈ copyDirectory includePats excludePats (pre ++ ⟨d, true⟩ :: post)) :
    shouldInclude d includePats excludePats = false ∧
    hasPrefixStr p (d ++ "/") = false ∧ p ≠ d := by
  have hd := shouldInclude_of_excluded d includePats excludePats pattern hp hm
  exact ⟨hd, walkFiltered_no_descendant_of_excluded includePats excludePats d post hd
    pre [] hpre p hq⟩

/-- C7 witness: with include `["*"]` and exclude `["Doc*"]`, the directory
`"Documents"` is excluded despite the include match and the copy output of
a listing containing it and one of its files is exactly `["a.txt"]`. -/
theorem c7_exclude_overrides_include_witness :
    shouldInclude "Documents" ["*"] ["Doc*"] = false ∧
    hasPrefixStr "a.txt" ("Documents" ++ "/") = false ∧ "a.txt" ≠ "Documents" :=
  c7_exclude_overrides_include ["*"] ["Doc*"] "Doc*" "Documents" "a.txt"
    [⟨"a.txt", false⟩] [⟨"Documents/x.pdf", false⟩]
    (by decide) (by decide) (by decide) (by decide)

/-- With exit-on-error disabled every item is attempted: the recorded
results are exactly the per-item outcomes in configuration order and the
loop never aborts. -/
theorem runItems_no_exit (ni : Bool) (items : List ItemOutcome) (rs : List String) :
    runItems false ni items rs = (items.map ItemOutcome.ok, false) := by
  induction items generalizing rs with
  | nil => rfl
  | cons o rest ih => cases o <;> simp [runItems, ItemOutcome.ok, ih]

/-- With exit-on-error enabled and non-interactive, the loop stops at the
first failing item: the results are the successes so far plus the one
failed entry, and the run aborts. -/
theorem runItems_exit_noninteractive (pre post : List ItemOutcome) (f : ItemOutcome)
    (rs : List String) (hpre : ∀ o ∈ pre, o = ItemOutcome.success)
    (hf : f ≠ ItemOutcome.success) :
    runItems true true (pre ++ f :: post) rs = (pre.map (fun _ => true) ++ [false], true) := by
  induction pre with
  | nil =>
    cases f
    · exact absurd rfl hf
    · simp [runItems]
    · simp [runItems]
  | cons o rest ih =>
    have ho : o = ItemOutcome.success := hpre o (List.mem_cons_self _ _)
    subst ho
    rw [List.cons_append]
    simp [runItems, ih (fun x hx => hpre x (List.mem_cons_of_mem _ hx))]

/-- C3 counterexample: the prompts lowercase and trim the response before
comparing, so the inputs `"YES"` and `" No "` — which are not the literal
strings `"yes"` and `"no"` — respectively confirm a gated action and
continue past an exit-on-error halt, refuting the claim as stated. -/
theorem c3_literal_response_counterexample :
    confirmsProceed "YES" = true ∧ ("YES" : String) ≠ "yes" ∧
    continuesPastHalt " No " = true ∧ (" No " : String) ≠ "no" := by
  refine ⟨by decide, by decide, by decide, by decide⟩

/-- C3 (amended): after normalising the response by lowercasing and
trimming whitespace, exactly the responses normalising to `"yes"` confirm
the gated actions (proceeding with the backup; cleanup after a partial
failure), exactly those normalising to `"no"` continue execution past an
exit-on-error halt, and every other input is the non-confirming default
(the gate aborts / the run stops). -/
theorem c3_normalized_response_gates (s : String) (o : ItemOutcome)
    (rest : List ItemOutcome) (rs : List String) (failed : Nat)
    (ho : o ≠ ItemOutcome.success) (hf : 0 < failed) :
    (proceedWithBackup false s = true ↔ normalizeResponse s = "yes") ∧
    (cleanupRuns false failed s = true ↔ normalizeResponse s = "yes") ∧
    (normalizeResponse s = "no" →
      runItems true false (o :: rest) (s :: rs) =
        (false :: (runItems true false rest rs).1, (runItems true false rest rs).2)) ∧
    (normalizeResponse s ≠ "no" → runItems true false (o :: rest) (s :: rs) = ([false], true)) := by
  refine ⟨?_, ?_, ?_, ?_⟩
  · simp [proceedWithBackup, confirmsProceed]
  · simp [cleanupRuns, hf.ne', confirmsCleanup]
  · intro h
    cases o
    · exact absurd rfl ho
    · simp [runItems, continuesPastHalt, h]
    · simp [runItems, continuesPastHalt, h]
  · intro h
    cases o
    · exact absurd rfl ho
    · simp [runItems, continuesPastHalt, h]
    · simp [runItems, continuesPastHalt, h]

/-- C3 witness: normalisation in action on the three gates. -/
theorem c3_normalized_response_gates_witness :
    proceedWithBackup false " YES " = true ∧
    runItems true false [ItemOutcome.copyFail] ["NO"] = ([false], false) := by
  have h1 := c3_normalized_response_gates " YES " ItemOutcome.copyFail [] [] 1
    (by decide) (by decide)
  have h2 := c3_normalized_response_gates "NO" ItemOutcome.copyFail [] [] 1
    (by decide) (by decide)
  exact ⟨h1.1.mpr (by decide), (h2.2.2.1 (by decide)).trans (by decide)⟩

/-- C4: with exit-on-error disabled all `n` items are attempted and the
result list has the `n` per-item outcomes in configuration order; with
exit-on-error enabled and non-interactive, the first failure (counting or
copy) aborts the run immediately with only the items up to and including
the failure recorded — for 3 items with item 2 failing, exactly two
results. -/
theorem c4_exit_on_error_policy (ni : Bool) (items pre post : List ItemOutcome)
    (f : ItemOutcome) (rs rs2 : List String)
    (hpre : ∀ o ∈ pre, o = ItemOutcome.success) (hf : f ≠ ItemOutcome.success) :
    runItems false ni items rs = (items.map ItemOutcome.ok, false) ∧
    (runItems false ni items rs).1.length = items.length ∧
    runItems true true (pre ++ f :: post) rs2 = (pre.map (fun _ => true) ++ [false], true) ∧
    (runItems true true (pre ++ f :: post) rs2).1.length = pre.length + 1 := by
  refine ⟨runItems_no_exit ni items rs, ?_,
    runItems_exit_noninteractive pre post f rs2 hpre hf, ?_⟩
  · rw [runItems_no_exit]; simp
  · rw [runItems_exit_noninteractive pre post f rs2 hpre hf]; simp

/-- C4 witness: the two 3-item scenarios of the claim. -/
theorem c4_exit_on_error_policy_witness :
    runItems false false [ItemOutcome.success, ItemOutcome.copyFail, ItemOutcome.success] [] =
      ([true, false, true], false) ∧
    runItems true true [ItemOutcome.success, ItemOutcome.countFail, ItemOutcome.success] [] =
      ([true, false], true) := by
  have h := c4_exit_on_error_policy false
    [ItemOutcome.success, ItemOutcome.copyFail, ItemOutcome.success]
    [ItemOutcome.success] [ItemOutcome.success] ItemOutcome.countFail [] []
    (by decide) (by decide)
  exact ⟨h.1.trans (by decide), h.2.2.1.trans (by decide)⟩

/-- C5: the post-run retention decision — cleanup always runs with zero
failures; with failures it is skipped non-interactively, and runs
interactively exactly on a response normalising to `"yes"`. -/
theorem c5_retention_decision (ni : Bool) (failed : Nat) (resp : String) :
    cleanupRuns ni 0 resp = true ∧
    (0 < failed → cleanupRuns true failed resp = false) ∧
    (0 < failed → (cleanupRuns false failed resp = true ↔ normalizeResponse resp = "yes")) := by
  refine ⟨by simp [cleanupRuns], ?_, ?_⟩
  · intro hfail
    simp [cleanupRuns, hfail.ne']
  · intro hfail
    simp [cleanupRuns, hfail.ne', confirmsCleanup]

/-- C5 witness: the three branches at concrete inputs. -/
theorem c5_retention_decision_witness :
    cleanupRuns false 0 "" = true ∧ cleanupRuns true 2 "yes" = false ∧
    cleanupRuns false 2 "yes" = true :=
  ⟨(c5_retention_decision false 0 "").1,
   (c5_retention_decision true 2 "yes").2.1 (by decide),
   ((c5_retention_decision false 2 "yes").2.2 (by decide)).mpr (by decide)⟩

/-- C6: over a name-sorted listing (the `os.ReadDir` guarantee),
`cleanupOldBackups` is a no-op when at most `backupsToKeep` prefixed
subdirectories exist, and otherwise attempts to remove exactly
`count - keep` of them — the lexically smallest — leaving every kept name
lexically at least every removed one; a listing failure removes nothing
(and the function, which only logs removal errors and never returns a
non-nil error, is modelled as total). -/
theorem c6_cleanup_removes_oldest (keep : Nat) (entries : List DirEntry)
    (hsorted : entries.Pairwise (fun a b => lexLe a.name.data b.name.data = true)) :
    ((entries.filter isBackupDirEntry).length ≤ keep →
        cleanupOldBackups keep (some entries) = []) ∧
    (keep < (entries.filter isBackupDirEntry).length →
        cleanupOldBackups keep (some entries) =
          ((entries.filter isBackupDirEntry).take
            ((entries.filter isBackupDirEntry).length - keep)).map (·.name) ∧
        (cleanupOldBackups keep (some entries)).length =
          (entries.filter isBackupDirEntry).length - keep ∧
        ∀ x ∈ cleanupOldBackups keep (some entries),
          ∀ e ∈ (entries.filter isBackupDirEntry).drop
              ((entries.filter isBackupDirEntry).length - keep),
            lexLe x.data e.name.data = true) ∧
    cleanupOldBackups keep none = [] := by
  refine ⟨?_, ?_, rfl⟩
  · intro hle
    simp [cleanupOldBackups, hle]
  · intro hgt
    have hnot : ¬ (entries.filter isBackupDirEntry).length ≤ keep := by omega
    have hcleanup : cleanupOldBackups keep (some entries) =
        ((entries.filter isBackupDirEntry).take
          ((entries.filter isBackupDirEntry).length - keep)).map (·.name) := by
      simp [cleanupOldBackups, hnot]
    refine ⟨hcleanup, ?_, ?_⟩
    · rw [hcleanup, List.length_map, List.length_take]
      omega
    · intro x hx e he
      rw [hcleanup] at hx
      rcases List.mem_map.mp hx with ⟨a, ha, rfl⟩
      have hdirs : (entries.filter isBackupDirEntry).Pairwise
          (fun a b => lexLe a.name.data b.name.data = true) :=
        hsorted.filter isBackupDirEntry
      rw [← List.take_append_drop ((entries.filter isBackupDirEntry).length - keep)
        (entries.filter isBackupDirEntry)] at hdirs
      exact (List.pairwise_append.mp hdirs).2.2 a ha e he

/-- C6 witness: keep 3 over five prefixed directories in chronological
(= lexical) order removes exactly the two oldest. -/
theorem c6_cleanup_removes_oldest_witness :
    cleanupOldBackups 3 (some
      [⟨"smbkp-20240101-000000", true⟩, ⟨"smbkp-20240102-000000", true⟩,
       ⟨"smbkp-20240103-000000", true⟩, ⟨"smbkp-20240104-000000", true⟩,
       ⟨"smbkp-20240105-000000", true⟩]) =
      ["smbkp-20240101-000000", "smbkp-20240102-000000"] := by
  have h := c6_cleanup_removes_oldest 3
    [⟨"smbkp-20240101-000000", true⟩, ⟨"smbkp-20240102-000000", true⟩,
     ⟨"smbkp-20240103-000000", true⟩, ⟨"smbkp-20240104-000000", true⟩,
     ⟨"smbkp-20240105-000000", true⟩] (by decide)
  exact (h.2.1 (by decide)).1.trans (by decide)

/-- C10: everything `cleanupOldBackups` attempts to remove is the name of
an entry of the backup root's own listing that is a directory and whose
name starts with `"smbkp-"`: files, differently-named subdirectories and
paths outside the backup root are never touched. -/
theorem c10_cleanup_scope (keep : Nat) (entries : Option (List DirEntry)) (s : String)
    (hs : s ∈ cleanupOldBackups keep entries) :
    ∃ l, entries = some l ∧ ∃ e, e ∈ l ∧ e.name = s ∧ e.isDir = true ∧
      hasPrefixStr s (Prefix ++ "-") = true := by
  cases entries with
  | none => simp [cleanupOldBackups] at hs
  | some l =>
    refine ⟨l, rfl, ?_⟩
    simp only [cleanupOldBackups] at hs
    by_cases hlen : (l.filter isBackupDirEntry).length ≤ keep
    · rw [if_pos hlen] at hs
      simp at hs
    · rw [if_neg hlen] at hs
      rcases List.mem_map.mp hs with ⟨e, he, rfl⟩
      have he2 : e ∈ l.filter isBackupDirEntry := List.mem_of_mem_take he
      have hsplit := List.mem_filter.mp he2
      have hprop := hsplit.2
      simp only [isBackupDirEntry, Bool.and_eq_true] at hprop
      exact ⟨e, hsplit.1, rfl, hprop.1, hprop.2⟩

/-- C10 witness: a concrete removal target is a prefixed subdirectory of
the listed root. -/
theorem c10_cleanup_scope_witness :
    ∃ l, (some [DirEntry.mk "smbkp-a" true, DirEntry.mk "notes.txt" false,
        DirEntry.mk "smbkp-b" true] : Option (List DirEntry)) = some l ∧
      ∃ e, e ∈ l ∧ e.name = "smbkp-a" ∧ e.isDir = true ∧
        hasPrefixStr "smbkp-a" (Prefix ++ "-") = true :=
  c10_cleanup_scope 1
    (some [⟨"smbkp-a", true⟩, ⟨"notes.txt", false⟩, ⟨"smbkp-b", true⟩]) "smbkp-a" (by decide)

/-- One callback invocation never lowers `lastUpdate`. -/
theorem progressStep_lastUpdate_le (t : Nat) (s : ProgressState) :
    s.lastUpdate ≤ (progressStep t s).1.lastUpdate := by
  unfold progressStep
  by_cases ht : 0 < t
  · rw [if_pos ht]
    by_cases hlt : s.lastUpdate < ((s.processedItems + 1) * 100 / t : Nat)
    · rw [if_pos hlt]
      exact le_of_lt hlt
    · rw [if_neg hlt]
  · rw [if_neg ht]

/-- Loop invariant of the progress callback: after `k` invocations the
processed count is `k`, the redrawn percentages strictly increase, the
last redrawn value is the current `lastUpdate`, and every redrawn value is
the percentage of some invocation. -/
theorem runProgress_invariant (t k : Nat) :
    (runProgress t k).1.processedItems = k ∧
    List.Chain' (· < ·) (runProgress t k).2 ∧
    ((runProgress t k).2 ≠ [] →
      (runProgress t k).2.getLast? = some (runProgress t k).1.lastUpdate) ∧
    (∀ x ∈ (runProgress t k).2, ∃ i, i < k ∧ x = (((i + 1) * 100 / t : Nat) : Int)) := by
  induction k with
  | zero =>
    refine ⟨rfl, List.chain'_nil, fun h => absurd rfl h, ?_⟩
    intro x hx
    simp [runProgress] at hx
  | succ k ih =>
    obtain ⟨ih1, ih2, ih4, ih5⟩ := ih
    by_cases ht : 0 < t
    · by_cases hlt : (runProgress t k).1.lastUpdate < (((k + 1) * 100 / t : Nat) : Int)
      · have hstep : runProgress t (k + 1) =
            (⟨k + 1, (((k + 1) * 100 / t : Nat) : Int)⟩,
              (runProgress t k).2 ++ [(((k + 1) * 100 / t : Nat) : Int)]) := by
          simp only [runProgress, progressStep]
          rw [ih1, if_pos ht, if_pos hlt]
          simp
        rw [hstep]
        refine ⟨rfl, ?_, ?_, ?_⟩
        · refine List.chain'_append.mpr ⟨ih2, List.chain'_singleton _, ?_⟩
          intro x hx y hy
          simp only [List.head?_cons, Option.mem_def, Option.some.injEq] at hy
          subst hy
          have hne : (runProgress t k).2 ≠ [] := by
            intro hnil
            rw [hnil] at hx
            simp at hx
          have hlast := ih4 hne
          rw [hlast] at hx
          simp only [Option.mem_def, Option.some.injEq] at hx
          subst hx
          exact hlt
        · intro _
          rw [List.getLast?_concat]
        · intro x hx
          rcases List.mem_append.mp hx with hmem | hmem
          · rcases ih5 x hmem with ⟨i, hik, hEq⟩
            exact ⟨i, Nat.lt_succ_of_lt hik, hEq⟩
          · simp only [List.mem_singleton] at hmem
            exact ⟨k, Nat.lt_succ_self k, hmem⟩
      · have hstep : runProgress t (k + 1) =
            (⟨k + 1, (runProgress t k).1.lastUpdate⟩, (runProgress t k).2) := by
          simp only [runProgress, progressStep]
          rw [ih1, if_pos ht, if_neg hlt]
          simp
        rw [hstep]
        exact ⟨rfl, ih2, ih4, fun x hx =>
          (ih5 x hx).imp fun i hi => ⟨Nat.lt_succ_of_lt hi.1, hi.2⟩⟩
    · have hstep : runProgress t (k + 1) =
          (⟨k + 1, (runProgress t k).1.lastUpdate⟩, (runProgress t k).2) := by
        simp only [runProgress, progressStep]
        rw [ih1, if_neg ht]
        simp
      rw [hstep]
      exact ⟨rfl, ih2, ih4, fun x hx =>
        (ih5 x hx).imp fun i hi => ⟨Nat.lt_succ_of_lt hi.1, hi.2⟩⟩

/-- A duplicate-free list contained in another list is no longer than the
other list's deduplication. -/
theorem length_le_dedup_length_of_nodup {l l2 : List Int} (hn : l.Nodup)
    (hs : ∀ x ∈ l, x ∈ l2) : l.length ≤ l2.dedup.length := by
  calc l.length = l.toFinset.card := (List.toFinset_card_of_nodup hn).symm
    _ ≤ l2.toFinset.card := by
        refine Finset.card_le_card ?_
        intro x hx
        rw [List.mem_toFinset] at hx ⊢
        exact hs x hx
    _ = l2.dedup.length := List.card_toFinset l2

/-- C8: the progress bar is monotone — `lastUpdate` never decreases from
one callback invocation to the next, the sequence of redrawn percentages
strictly increases (so the display never regresses), and the number of
redraws over `k` created entries is bounded by the number of distinct
percentage values `⌊(i+1)·100/t⌋`, not by `k`. -/
theorem c8_progress_monotone_redraw (t k : Nat) :
    (runProgress t k).1.lastUpdate ≤ (runProgress t (k + 1)).1.lastUpdate ∧
    List.Chain' (· < ·) (runProgress t k).2 ∧
    (runProgress t k).2.length ≤
      (((List.range k).map (fun i => (((i + 1) * 100 / t : Nat) : Int))).dedup).length := by
  obtain ⟨h1, h2, h4, h5⟩ := runProgress_invariant t k
  refine ⟨?_, h2, ?_⟩
  · have hstep : (runProgress t (k + 1)).1 = (progressStep t (runProgress t k).1).1 := by
      simp [runProgress]
    rw [hstep]
    exact progressStep_lastUpdate_le t (runProgress t k).1
  · have hnodup : (runProgress t k).2.Nodup := (List.chain'_iff_pairwise.mp h2).nodup
    refine length_le_dedup_length_of_nodup hnodup ?_
    intro x hx
    rcases h5 x hx with ⟨i, hik, rfl⟩
    exact List.mem_map.mpr ⟨i, List.mem_range.mpr hik, rfl⟩

/-- A string extended by a suffix has that suffix. -/
theorem hasSuffixStr_append (ds suffix : String) :
    hasSuffixStr (ds ++ suffix) suffix = true := by
  unfold hasSuffixStr
  rw [List.isSuffixOf_iff_suffix, String.data_append]
  exact List.suffix_append _ _

/-- Trimming a suffix undoes appending it. -/
theorem trimSuffixStr_append (ds suffix : String) :
    trimSuffixStr (ds ++ suffix) suffix = ds := by
  rw [trimSuffixStr, if_pos (hasSuffixStr_append ds suffix)]
  show (⟨(ds ++ suffix).data.take ((ds ++ suffix).data.length - suffix.data.length)⟩ :
      String) = ds
  rw [String.data_append, List.length_append, Nat.add_sub_cancel, List.take_left]

/-- Evaluation of `parseDiskSize` on a canonical `<digits>mb` string. -/
theorem parseDiskSize_mb (ds : String) (n : Nat)
    (h1 : parseIntDec ds = some (n : Int))
    (h2 : toLowerStr (trimStr (ds ++ "mb")) = ds ++ "mb")
    (h4 : trimStr ds = ds)
    (hbound : n * 1048576 < 2 ^ 64) :
    parseDiskSize (ds ++ "mb") = some (n * 1048576) := by
  have hn : n < 2 ^ 64 := lt_of_le_of_lt (Nat.le_mul_of_pos_right n (by norm_num)) hbound
  simp only [parseDiskSize, h2]
  rw [if_pos (hasSuffixStr_append ds "mb"), trimSuffixStr_append, h4, h1]
  show some (((n : Int) % (2 : Int) ^ 64).toNat * 1048576 % 2 ^ 64) = some (n * 1048576)
  have h64i : (2 : Int) ^ 64 = 18446744073709551616 := by norm_num
  have h64n : (2 : Nat) ^ 64 = 18446744073709551616 := by norm_num
  refine congrArg some ?_
  rw [h64i, h64n] at *
  omega

/-- Evaluation of `parseDiskSize` on a canonical `<digits>gb` string. -/
theorem parseDiskSize_gb (ds : String) (n : Nat)
    (h1 : parseIntDec ds = some (n : Int))
    (h3 : toLowerStr (trimStr (ds ++ "gb")) = ds ++ "gb")
    (h4 : trimStr ds = ds)
    (h5 : hasSuffixStr (ds ++ "gb") "mb" = false)
    (hbound : n * 1073741824 < 2 ^ 64) :
    parseDiskSize (ds ++ "gb") = some (n * 1073741824) := by
  have hn : n < 2 ^ 64 := lt_of_le_of_lt (Nat.le_mul_of_pos_right n (by norm_num)) hbound
  simp only [parseDiskSize, h3]
  rw [if_neg (by rw [h5]; exact Bool.false_ne_true),
    if_pos (hasSuffixStr_append ds "gb"), trimSuffixStr_append, h4, h1]
  show some (((n : Int) % (2 : Int) ^ 64).toNat * 1073741824 % 2 ^ 64) = some (n * 1073741824)
  have h64i : (2 : Int) ^ 64 = 18446744073709551616 := by norm_num
  have h64n : (2 : Nat) ^ 64 = 18446744073709551616 := by norm_num
  refine congrArg some ?_
  rw [h64i, h64n] at *
  omega

/-- C9: `parseDiskSize` maps `"10gb"` to exactly 10737418240 bytes and, in
general, canonical `<N>mb` / `<N>gb` strings to `N·1048576` /
`N·1073741824`; and whenever the free-space probe reports fewer available
bytes than the parsed minimum, the orchestrator aborts before creating the
run directory, with zero items processed. -/
theorem c9_min_free_space_gate (ds : String) (n avail minp : Nat)
    (eoe ni : Bool) (items : List ItemOutcome) (rs : List String)
    (h1 : parseIntDec ds = some (n : Int))
    (h2 : toLowerStr (trimStr (ds ++ "mb")) = ds ++ "mb")
    (h3 : toLowerStr (trimStr (ds ++ "gb")) = ds ++ "gb")
    (h4 : trimStr ds = ds)
    (h5 : hasSuffixStr (ds ++ "gb") "mb" = false)
    (hmbound : n * 1048576 < 2 ^ 64) (hgbound : n * 1073741824 < 2 ^ 64)
    (hspace : avail < minp) :
    parseDiskSize "10gb" = some 10737418240 ∧
    parseDiskSize (ds ++ "mb") = some (n * 1048576) ∧
    parseDiskSize (ds ++ "gb") = some (n * 1073741824) ∧
    orchestrate avail minp eoe ni items rs = ⟨false, 0⟩ := by
  refine ⟨by decide, parseDiskSize_mb ds n h1 h2 h4 hmbound,
    parseDiskSize_gb ds n h1 h3 h4 h5 hgbound, ?_⟩
  simp [orchestrate, hspace]

/-- C9 witness: the spec scenario — a 10gb minimum against a 5000000000
byte probe aborts with nothing created. -/
theorem c9_min_free_space_gate_witness :
    parseDiskSize ("10" ++ "gb") = some 10737418240 ∧
    orchestrate 5000000000 10737418240 false true [] [] = ⟨false, 0⟩ := by
  have h := c9_min_free_space_gate "10" 10 5000000000 10737418240 false true [] []
    (by decide) (by decide) (by decide) (by decide) (by decide)
    (by decide) (by decide) (by decide)
  exact ⟨h.2.2.1.trans (by decide), h.2.2.2⟩

end SimpleBackup
